import Mathlib

/-!
Shallow embedding of the SIMCO packed-column gas-scrubber design engine
(`engine/thermo/mass_transfer.py`, `engine/thermo/column_hydraulics.py`,
`engine/thermo/scrubber.py`) over the reals.

Conventions:
  * Python functions that can raise (`ValueError`, `ZeroDivisionError`,
    `math domain error`) are modelled as `Option ℝ`-valued functions,
    `none` standing for the raised exception.  Guards appear in the same
    order as in the source.
  * Python's float arithmetic is modelled by exact real arithmetic;
    `x ** y` on positive bases is `Real.rpow`, `math.log` is `Real.log`,
    `math.sqrt` is `Real.sqrt` (raising on negative input).
  * Python's `round(x, n)` (banker's rounding to `n` decimal digits) is
    modelled by `pyround_to n`, which rounds ties to the even integer.
-/

noncomputable section

/-- Python's `round` to an integer: round half to even (banker's rounding).
On a tie `Int.fract x = 1/2` the nearest even integer is `2 * round (x/2)`;
otherwise it agrees with rounding half away from the tie, i.e. `round`. -/
def pyround (x : ℝ) : ℤ :=
  if Int.fract x = 1/2 then 2 * round (x / 2) else round x

/-- Python's `round(x, n)`: round to `n` decimal digits, ties to even. -/
def pyround_to (n : ℕ) (x : ℝ) : ℝ :=
  (pyround (x * 10 ^ n) : ℝ) / 10 ^ n

/-! ### engine/thermo/mass_transfer.py -/

/-- Translation of `kremser_NTU(y_in, y_out, A)`: number of transfer units via
the Kremser equation, with the special case for `|A - 1| < 1e-6` and input
validation raising `ValueError` (modelled as `none`). -/
def kremser_NTU (y_in y_out A : ℝ) : Option ℝ :=
  if y_in ≤ 0 then none
  else if y_out ≤ 0 then none
  else if y_in ≤ y_out then none
  else if A ≤ 0 then none
  else if |A - 1| < 1e-6 then some (y_in / y_out - 1)
  else if y_in / y_out * (1 - 1/A) + 1/A ≤ 0 then none
  else some (Real.log (y_in / y_out * (1 - 1/A) + 1/A) / Real.log A)

/-- Translation of `kremser_y_out(y_in, A, NTU)`: inverse Kremser relation,
with the same `A ≈ 1` special case and input validation. -/
def kremser_y_out (y_in A NTU : ℝ) : Option ℝ :=
  if y_in ≤ 0 then none
  else if A ≤ 0 then none
  else if NTU < 0 then none
  else if |A - 1| < 1e-6 then some (y_in / (1 + NTU))
  else some (y_in * (A - 1) / (A ^ (NTU + 1) - 1))

/-- Translation of `absorption_factor(L_mol, G_mol, m) = L / (m·G)` with its
input validation. -/
def absorption_factor (L_mol G_mol m : ℝ) : Option ℝ :=
  if m ≤ 0 then none
  else if G_mol ≤ 0 then none
  else some (L_mol / (m * G_mol))

/-- Translation of `henry_at_T`: van't Hoff temperature correction of a
Henry constant (`scrubber.py`). -/
def henry_at_T (H_pa_ref dH_sol T_ref_K T_K : ℝ) : ℝ :=
  H_pa_ref * Real.exp (-dH_sol / 8.314 * (1 / T_K - 1 / T_ref_K))

/-- Translation of `onda_kG_a`: Onda (1968) gas-phase volumetric mass
transfer coefficient.  The input guard raises on non-positive flux, area or
diffusivity. -/
def onda_kG_a (G_mass_flux a_p D_G mu_G rho_G d_nom : ℝ) : Option ℝ :=
  if G_mass_flux ≤ 0 ∨ a_p ≤ 0 ∨ D_G ≤ 0 then none
  else
    let Re_G := G_mass_flux / (a_p * mu_G)
    let Sc_G := mu_G / (rho_G * D_G)
    let ad_p := a_p * d_nom
    let kG := 5.23 * a_p * D_G * Re_G ^ (0.7 : ℝ) * Sc_G ^ ((1 : ℝ)/3) * ad_p ^ (-2 : ℝ)
    some (kG * (0.80 * a_p))

/-- Translation of `onda_kL_a`: Onda (1968) liquid-phase volumetric mass
transfer coefficient. -/
def onda_kL_a (L_mass_flux a_p D_L mu_L rho_L d_nom : ℝ) : Option ℝ :=
  if L_mass_flux ≤ 0 ∨ a_p ≤ 0 ∨ D_L ≤ 0 then none
  else
    let Re_L := L_mass_flux / (a_p * mu_L)
    let Sc_L := mu_L / (rho_L * D_L)
    let ad_p := a_p * d_nom
    let grav_factor := (rho_L / (mu_L * 9.81)) ^ ((1 : ℝ)/3)
    let kL := 0.0051 / grav_factor * Re_L ^ ((2 : ℝ)/3) * Sc_L ^ (-(0.5 : ℝ)) * ad_p ^ (0.4 : ℝ)
    some (kL * (0.80 * a_p))

/-- Result record of `overall_HTU`. -/
structure HTUResult where
  H_G : ℝ
  H_L : ℝ
  H_OG : ℝ
  lam : ℝ

/-- Translation of `overall_HTU`: overall gas-phase height of a transfer
unit, `H_OG = H_G + λ·H_L`, with the source's zero-guards. -/
def overall_HTU (G_mol_flux L_mol_flux m kG_a kL_a c_total_L P_total : ℝ) : HTUResult :=
  let c_G := P_total / (8.314 * 298.15)
  let H_G := if kG_a > 0 then G_mol_flux / (kG_a * c_G) else 0
  let H_L := if kL_a > 0 then L_mol_flux / (kL_a * c_total_L) else 0
  let lam := if L_mol_flux > 0 then m * G_mol_flux / L_mol_flux else 0
  ⟨H_G, H_L, H_G + lam * H_L, lam⟩

/-! ### engine/thermo/column_hydraulics.py -/

/-- Translation of `flow_parameter(L_mass, G_mass, rho_G, rho_L)`.  The code
validates only `G_mass > 0` and `rho_L > 0`; `math.sqrt` additionally raises
when `rho_G / rho_L < 0`. -/
def flow_parameter (L_mass G_mass rho_G rho_L : ℝ) : Option ℝ :=
  if G_mass ≤ 0 then none
  else if rho_L ≤ 0 then none
  else if rho_G / rho_L < 0 then none
  else some ((L_mass / G_mass) * Real.sqrt (rho_G / rho_L))

/-- Translation of `_gpdc_flooding_capacity(X)`: log-quadratic fit to the
GPDC flooding line, with `X` clamped to `[0.01, 5.0]`. -/
def gpdc_flooding_capacity (X : ℝ) : ℝ :=
  let X_clamped := max 0.01 (min X 5.0)
  let ln_X := Real.log X_clamped
  Real.exp (-4.7674 + -0.9638 * ln_X + -0.0847 * ln_X ^ 2)

/-- Translation of `flooding_velocity(F_p, rho_G, rho_L, L_mass, G_mass, mu_L)`.
`none` covers each `ValueError` of the source, the domain error of
`(mu_L/mu_ref) ** 0.1` on a negative base, and the `ZeroDivisionError` when
the denominator vanishes (`mu_L = 0`). -/
def flooding_velocity (F_p rho_G rho_L L_mass G_mass mu_L : ℝ) : Option ℝ :=
  if F_p ≤ 0 then none
  else if rho_G ≤ 0 ∨ rho_L ≤ 0 then none
  else if rho_L ≤ rho_G then none
  else
    match flow_parameter L_mass G_mass rho_G rho_L with
    | none => none
    | some X =>
      if mu_L / 1e-3 < 0 then none
      else
        let mu_correction := (mu_L / 1e-3) ^ (0.1 : ℝ)
        if F_p * rho_G * mu_correction = 0 then none
        else
          let u_flood_sq := gpdc_flooding_capacity X * 9.81 * (rho_L - rho_G) /
            (F_p * rho_G * mu_correction)
          if u_flood_sq ≤ 0 then none
          else some (Real.sqrt u_flood_sq)

/-- Result record of `column_diameter` (fields pre-rounded to 4 decimals,
exactly as the source rounds them before returning). -/
structure DiameterResult where
  u_design : ℝ
  A_column : ℝ
  D_column : ℝ

/-- Translation of `column_diameter(Q_gas_m3s, u_flood, flooding_fraction)`,
including the `0.1 ≤ flooding_fraction ≤ 0.95` validation and the 4-decimal
rounding of the returned fields. -/
def column_diameter (Q_gas_m3s u_flood flooding_fraction : ℝ) : Option DiameterResult :=
  if Q_gas_m3s ≤ 0 then none
  else if u_flood ≤ 0 then none
  else if ¬ (0.1 ≤ flooding_fraction ∧ flooding_fraction ≤ 0.95) then none
  else
    let u_design := flooding_fraction * u_flood
    let A_column := Q_gas_m3s / u_design
    let D_column := Real.sqrt (4 * A_column / Real.pi)
    some ⟨pyround_to 4 u_design, pyround_to 4 A_column, pyround_to 4 D_column⟩

/-- Translation of `pressure_drop_irrigated(u_G, F_p, rho_G, rho_L, L_mass,
G_mass, mu_L)`.  Note the source validates only `u_G`, `F_p`, `rho_G`;
`rho_L` is accepted unexamined (and unused).  `math.sqrt` and the
fractional power raise on negative arguments. -/
def pressure_drop_irrigated (u_G F_p rho_G rho_L L_mass G_mass mu_L : ℝ) : Option ℝ :=
  if u_G ≤ 0 ∨ F_p ≤ 0 ∨ rho_G ≤ 0 then none
  else
    let dP_dry := 0.04 * F_p * rho_G * u_G ^ 2
    let L_over_G := if G_mass > 0 then L_mass / G_mass else 0
    if L_over_G < 0 then none
    else
      let dP_wet := dP_dry * (1 + 0.40 * Real.sqrt L_over_G)
      if mu_L / 1e-3 < 0 then none
      else some (dP_wet * (mu_L / 1e-3) ^ (0.1 : ℝ))

/-- Translation of `minimum_wetting_rate(a_p, sigma, mu_L, rho_L)`.  Only
`a_p` is validated; division by `rho_L * sigma = 0` and the fractional
power of a negative base raise at runtime. -/
def minimum_wetting_rate (a_p sigma mu_L rho_L : ℝ) : Option ℝ :=
  if a_p ≤ 0 then none
  else if rho_L * sigma = 0 then none
  else if mu_L / (rho_L * sigma) < 0 then none
  else some (0.08 * (mu_L / (rho_L * sigma)) ^ ((1 : ℝ)/3) * a_p ^ (-(2 : ℝ)/3))

/-! ### engine/thermo/scrubber.py — per-species acid-gas analysis -/

/-- One resolved entry of the gas mixture, as built by `_prepare_system`
(`name`/`category` come from the compound database, so within one prepared
system the category is a function of the name). -/
structure GasComponent where
  name : String
  category : String
  mol_percent : ℝ
  mol_fraction : ℝ

/-- The untargeted part of the removal-target computation in
`_compute_acid_gas_analysis` (lines computing `removal_frac` and
`y_out_target`, including the `y_out_target <= 0` fallback to 99.9%). -/
def uncapped_target (y_in removal_target_pct : ℝ) : ℝ × ℝ :=
  let removal_frac := removal_target_pct / 100
  let y_out_target := y_in * (1 - removal_frac)
  (removal_frac, if y_out_target ≤ 0 then y_in * 0.001 else y_out_target)

/-- The removal-target logic of `_compute_acid_gas_analysis` for one species
with a finite absorption factor `A`: the removal is recapped to `0.90·A`
(and flagged) only when `A < 1` AND the requested removal fraction exceeds
`0.95·A`.  Returns `(removal_frac, y_out_target, removal_capped)`. -/
def acid_gas_target (y_in removal_target_pct A : ℝ) : ℝ × ℝ × Bool :=
  let u := uncapped_target y_in removal_target_pct
  if A < 1 ∧ u.1 > A * 0.95 then (A * 0.90, y_in * (1 - A * 0.90), true)
  else (u.1, u.2, false)

/-- Per-species record appended to `acid_gas_results`.  `calculated` is the
`status == "calculated"` flag (`false` for `no_henry_data` records);
`A_full` is the full-precision `_A_full` value, `none` standing for the
`float('inf')` that Python stores when `m_eff ≤ 0`. -/
structure AGResult where
  name : String
  calculated : Bool
  A_full : Option ℝ
  H_OG_full : ℝ
  NTU : ℝ
  Z_required : ℝ
  removal_capped : Bool
  m_eff : ℝ

/-- The scalar context assembled by `_prepare_system` that the per-species
analysis reads (temperatures, pressures, flows, column area, packing data,
solvent weight-percent and the kinetics reference weight-percent). -/
structure ScrubCtx where
  T_K : ℝ
  P_Pa : ℝ
  G_mol : ℝ
  L_mol : ℝ
  G_mass : ℝ
  L_mass : ℝ
  A_column : ℝ
  rho_G : ℝ
  rho_L : ℝ
  mu_L : ℝ
  solvent_wt_pct : ℝ
  ref_wt : Option ℝ
  specific_area : ℝ
  void_fraction : ℝ
  nominal_size_mm : Option ℝ

/-- Translation of the loop body of `_compute_acid_gas_analysis` for one
acid-gas component.  `hdb name` is `db.get_henry` (giving `(H_pa, dH_sol,
T_ref)`), `kdb name` is `db.get_kinetics` (giving `(E, D_G, D_L)`).  A
missing Henry record yields the `no_henry_data` result; `none` models a
raised exception (from `absorption_factor` or the Onda correlations).  The
`try/except ValueError` around `kremser_NTU` maps to `Option.getD 0`. -/
def analyze_one (hdb kdb : String → Option (ℝ × ℝ × ℝ)) (ctx : ScrubCtx)
    (removal_target_pct : ℝ) (comp : GasComponent) : Option AGResult :=
  match hdb comp.name with
  | none => some ⟨comp.name, false, none, 0, 0, 0, false, 0⟩
  | some hrec =>
    let H_pa_T := henry_at_T hrec.1 hrec.2.1 hrec.2.2 ctx.T_K
    let E_db := match kdb comp.name with | some k => k.1 | none => 1
    let D_G_val := match kdb comp.name with | some k => k.2.1 | none => 1.5e-5
    let D_L_val := match kdb comp.name with | some k => k.2.2 | none => 1.5e-9
    let E := match ctx.ref_wt with
      | some rw => if rw ≠ 0 ∧ ctx.solvent_wt_pct < 100 then E_db * (ctx.solvent_wt_pct / rw)
                   else E_db
      | none => E_db
    let m_eff := H_pa_T / (E * ctx.P_Pa)
    let Aopt : Option (Option ℝ) :=
      if m_eff > 0 then (absorption_factor ctx.L_mol ctx.G_mol m_eff).map some
      else some none
    match Aopt with
    | none => none
    | some A_or_inf =>
      let y_in := comp.mol_fraction
      let tgt := match A_or_inf with
        | some A => acid_gas_target y_in removal_target_pct A
        | none => ((uncapped_target y_in removal_target_pct).1,
                   (uncapped_target y_in removal_target_pct).2, false)
      let NTU := match A_or_inf with
        | some A => if A > 0 then (kremser_NTU y_in tgt.2.1 A).getD 0 else 0
        | none => 0
      let G_mass_flux := ctx.G_mass / ctx.A_column
      let L_mass_flux := ctx.L_mass / ctx.A_column
      let G_mol_flux := ctx.G_mol / ctx.A_column
      let L_mol_flux := ctx.L_mol / ctx.A_column
      let d_nom := match ctx.nominal_size_mm with
        | some d => if d ≠ 0 ∧ d > 0 then d / 1000
                    else 4 * ctx.void_fraction / ctx.specific_area
        | none => 4 * ctx.void_fraction / ctx.specific_area
      match onda_kG_a G_mass_flux ctx.specific_area D_G_val 1.8e-5 ctx.rho_G d_nom,
            onda_kL_a L_mass_flux ctx.specific_area D_L_val ctx.mu_L ctx.rho_L d_nom with
      | some kG_a, some kL_a =>
        let kL_a_eff := kL_a * E
        let htu := overall_HTU G_mol_flux L_mol_flux m_eff kG_a kL_a_eff 55500 ctx.P_Pa
        let H_OG := htu.H_OG
        let Z_comp := if NTU > 0 then H_OG * NTU else 0
        some ⟨comp.name, true, A_or_inf, H_OG, NTU, Z_comp, tgt.2.2, m_eff⟩
      | _, _ => none

/-- Translation of the `for comp in components` loop of
`_compute_acid_gas_analysis` building `acid_gas_results`: non-acid-gas
components are skipped, `none` propagates a raised exception. -/
def acid_gas_analysis (hdb kdb : String → Option (ℝ × ℝ × ℝ)) (ctx : ScrubCtx)
    (removal_target_pct : ℝ) : List GasComponent → Option (List AGResult)
  | [] => some []
  | c :: rest =>
    if c.category = "acid_gas" then
      match analyze_one hdb kdb ctx removal_target_pct c,
            acid_gas_analysis hdb kdb ctx removal_target_pct rest with
      | some r, some rs => some (r :: rs)
      | _, _ => none
    else acid_gas_analysis hdb kdb ctx removal_target_pct rest

/-! ### engine/thermo/scrubber.py — back-calculation at the design height -/

/-- One entry of the `exit_gas` list built by `_backcalc_at_height`
(before the mol-percent renormalization). -/
structure ExitRec where
  name : String
  inlet_mol_pct : ℝ
  outlet_mol_frac : ℝ
  removal_pct : ℝ
  absorbed_mol_s : ℝ

/-- Translation of the per-component body of `_backcalc_at_height`: look up
the matching `calculated` record, back-calculate through the inverse
Kremser relation at `NTU = Z_design / H_OG` when the record and height are
usable, otherwise pass the component through unchanged.  `none` models both
a raised exception in `kremser_y_out` and the NaN poisoning that Python's
`A = inf` record would produce. -/
def backcalc_entry (results : List AGResult) (G_mol Z_design : ℝ)
    (c : GasComponent) : Option ExitRec :=
  match results.find? (fun r => r.name == c.name && r.calculated) with
  | some ag =>
    if ag.H_OG_full > 0 ∧ Z_design > 0 then
      let actual_NTU := Z_design / ag.H_OG_full
      match ag.A_full with
      | some A =>
        (kremser_y_out c.mol_fraction A actual_NTU).map (fun y_out =>
          ⟨c.name, c.mol_percent, pyround_to 8 y_out,
           pyround_to 2 (if c.mol_fraction > 0 then (1 - y_out / c.mol_fraction) * 100 else 0),
           pyround_to 6 ((c.mol_fraction - y_out) * G_mol)⟩)
      | none => none
    else some ⟨c.name, c.mol_percent, c.mol_fraction, 0, 0⟩
  | none => some ⟨c.name, c.mol_percent, c.mol_fraction, 0, 0⟩

/-- Translation of the exit-gas renormalization at the end of
`_backcalc_at_height`: each `outlet_mol_frac` is turned into
`outlet_mol_pct = round(frac / total * 100, 4)` when the total is positive,
else `0.0`. -/
def renormalize_pct (fracs : List ℝ) : List ℝ :=
  let total := fracs.sum
  fracs.map (fun f => if total > 0 then pyround_to 4 (f / total * 100) else 0)

/-! ### engine/thermo/scrubber.py — solve-for-L bisection -/

/-- Translation of the `for n_iter in range(1, max_iter + 1)` bisection loop
of `_bisect_for_L`, by structural recursion on the remaining iteration
budget.  Returns `(L_mid, converged, n_iter)` exactly as the Python loop
leaves them: the midpoint computed in the last executed iteration, the
convergence flag, and the number of executed iterations. -/
def bisectIter (Zfun : ℝ → ℝ) (Z_target tol : ℝ) : ℕ → ℝ → ℝ → ℕ → ℝ × Bool × ℕ
  | 0, L_lo, L_hi, n => ((L_lo + L_hi) / 2, false, n)
  | fuel + 1, L_lo, L_hi, n =>
    if |Zfun ((L_lo + L_hi) / 2) - Z_target| < tol then ((L_lo + L_hi) / 2, true, n + 1)
    else if fuel = 0 then ((L_lo + L_hi) / 2, false, n + 1)
    else if Zfun ((L_lo + L_hi) / 2) > Z_target then
      bisectIter Zfun Z_target tol fuel ((L_lo + L_hi) / 2) L_hi (n + 1)
    else bisectIter Zfun Z_target tol fuel L_lo ((L_lo + L_hi) / 2) (n + 1)

/-- Translation of `_bisect_for_L`, with the height computation
`_compute_Z_for_L` abstracted as the function `Zfun : L ↦ Z(L)` of the
liquid mass rate (all of its other arguments are fixed across the search),
and the preliminary database scan summarized by its three outputs
`max_m_eff`, `G_mol` and `solvent_MW_kg`.  `none` models the two raised
`ValueError`s (no usable acid gas, and the infeasible-height check). -/
def bisect_for_L (Zfun : ℝ → ℝ) (max_m_eff G_mol solvent_MW_kg Z_target tol : ℝ)
    (max_iter : ℕ) : Option (ℝ × Bool × ℕ) :=
  if max_m_eff ≤ 0 then none
  else
    let L_mol_min := 1.05 * max_m_eff * G_mol
    let L_min := L_mol_min * solvent_MW_kg
    let L_max := max (L_min * 100) 1000
    let Z_at_min := Zfun L_min
    let Z_at_max := Zfun L_max
    if Z_at_max > Z_target then none
    else if Z_at_min < Z_target then
      some (bisectIter Zfun Z_target tol max_iter (L_min * 0.5) L_min 0)
    else
      some (bisectIter Zfun Z_target tol max_iter L_min L_max 0)

/-! ### Helper lemmas about the Kremser functions -/

/-- Destructor for a successful `kremser_NTU` call: the validated input
conditions together with the branch taken and the returned value. -/
lemma kremser_NTU_cases {y_in y_out A N : ℝ} (h : kremser_NTU y_in y_out A = some N) :
    0 < y_out ∧ y_out < y_in ∧ 0 < A ∧
      ((|A - 1| < 1e-6 ∧ N = y_in / y_out - 1) ∨
       (1e-6 ≤ |A - 1| ∧ 0 < y_in / y_out * (1 - 1/A) + 1/A ∧
        N = Real.log (y_in / y_out * (1 - 1/A) + 1/A) / Real.log A)) := by
  unfold kremser_NTU at h
  split_ifs at h with h1 h2 h3 h4 h5 h6
  · exact ⟨not_le.mp h2, not_le.mp h3, not_le.mp h4,
      Or.inl ⟨h5, (Option.some_inj.mp h).symm⟩⟩
  · exact ⟨not_le.mp h2, not_le.mp h3, not_le.mp h4,
      Or.inr ⟨not_lt.mp h5, not_le.mp h6, (Option.some_inj.mp h).symm⟩⟩

/-- In the general branch the Kremser NTU is strictly positive. -/
lemma kremser_general_pos {r A : ℝ} (hr : 1 < r) (hA : 0 < A) (hA1 : A ≠ 1)
    (harg : 0 < r * (1 - 1/A) + 1/A) :
    0 < Real.log (r * (1 - 1/A) + 1/A) / Real.log A := by
  rcases lt_or_gt_of_ne hA1 with hlt | hgt
  · have hinv : 1 < 1/A := by rw [lt_div_iff hA]; linarith
    have harg1 : r * (1 - 1/A) + 1/A < 1 := by nlinarith
    exact div_pos_iff.mpr (Or.inr ⟨Real.log_neg harg harg1, Real.log_neg hA hlt⟩)
  · have h1A : 1/A < 1 := by rw [div_lt_one hA]; exact hgt
    have harg1 : 1 < r * (1 - 1/A) + 1/A := by nlinarith
    exact div_pos (Real.log_pos harg1) (Real.log_pos hgt)

/-- Closed form of `A ^ (N + 1)` for the general-branch NTU
`N = log(arg) / log(A)`:  it equals `1 + r·(A - 1)` where `r = y_in/y_out`. -/
lemma rpow_kremser {r A : ℝ} (hA : 0 < A) (hA1 : A ≠ 1)
    (harg : 0 < r * (1 - 1/A) + 1/A) :
    A ^ (Real.log (r * (1 - 1/A) + 1/A) / Real.log A + 1) = 1 + r * (A - 1) := by
  have hlogA : Real.log A ≠ 0 := Real.log_ne_zero_of_pos_of_ne_one hA hA1
  rw [Real.rpow_def_of_pos hA]
  have hmul : Real.log A * (Real.log (r * (1 - 1/A) + 1/A) / Real.log A + 1)
      = Real.log (r * (1 - 1/A) + 1/A) + Real.log A := by
    field_simp
  rw [hmul, Real.exp_add, Real.exp_log harg, Real.exp_log hA]
  field_simp
  ring

/-! ### C1: Kremser round-trip -/

/-- C1 (confirmed).  Kremser round-trip: whenever
`kremser_NTU(y_in, y_out, A)` is defined (which already encodes
`0 < y_out < y_in` and `A > 0` and a positive log argument),
`kremser_y_out(y_in, A, kremser_NTU(y_in, y_out, A))` succeeds and equals
`y_out` exactly — in particular within the claim's 1e-6 tolerance — in the
near-`A = 1` special branch as well as in the general branch. -/
theorem kremser_roundtrip (y_in y_out A N : ℝ)
    (h : kremser_NTU y_in y_out A = some N) :
    kremser_y_out y_in A N = some y_out := by
  obtain ⟨hyout, hltio, hA, hcase⟩ := kremser_NTU_cases h
  have hyin : 0 < y_in := lt_trans hyout hltio
  have hr : 1 < y_in / y_out := (one_lt_div hyout).mpr hltio
  rcases hcase with ⟨hband, hN⟩ | ⟨hband, harg, hN⟩
  · have hNpos : 0 < N := by rw [hN]; linarith
    unfold kremser_y_out
    rw [if_neg (not_le.mpr hyin), if_neg (not_le.mpr hA),
      if_neg (not_lt.mpr hNpos.le), if_pos hband]
    congr 1
    rw [hN, show 1 + (y_in / y_out - 1) = y_in / y_out from by ring]
    rw [div_div_eq_mul_div, mul_comm, mul_div_assoc, div_self (ne_of_gt hyin), mul_one]
  · have hA1 : A ≠ 1 := by
      intro he
      rw [he] at hband
      norm_num at hband
    have hNpos : 0 < N := by
      rw [hN]; exact kremser_general_pos hr hA hA1 harg
    unfold kremser_y_out
    rw [if_neg (not_le.mpr hyin), if_neg (not_le.mpr hA),
      if_neg (not_lt.mpr hNpos.le), if_neg (not_lt.mpr hband)]
    congr 1
    have hpow : A ^ (N + 1) = 1 + y_in / y_out * (A - 1) := by
      rw [hN]; exact rpow_kremser hA hA1 harg
    rw [hpow, show 1 + y_in / y_out * (A - 1) - 1 = y_in / y_out * (A - 1) from by ring]
    have hA1' : A - 1 ≠ 0 := sub_ne_zero.mpr hA1
    field_simp

/-- Witness for C1 at `y_in = 2`, `y_out = 1`, `A = 1` (special branch,
NTU = 1). -/
theorem kremser_roundtrip_witness : kremser_y_out 2 1 1 = some 1 :=
  kremser_roundtrip 2 1 1 1 (by norm_num [kremser_NTU])

/-! ### C10: inverse-Kremser output bounds -/

/-- C10 (confirmed).  For every `y_in > 0`, `A > 0`, `NTU > 0`,
`kremser_y_out` succeeds and its value lies strictly between `0` and
`y_in`; consequently the back-calculated removal percentage
`(1 - y_out/y_in)·100` lies strictly between 0 and 100. -/
theorem kremser_y_out_bounds (y_in A NTU : ℝ) (hy : 0 < y_in) (hA : 0 < A)
    (hN : 0 < NTU) :
    (kremser_y_out y_in A NTU).isSome = true ∧
    0 < (kremser_y_out y_in A NTU).getD 0 ∧
    (kremser_y_out y_in A NTU).getD 0 < y_in ∧
    0 < (1 - (kremser_y_out y_in A NTU).getD 0 / y_in) * 100 ∧
    (1 - (kremser_y_out y_in A NTU).getD 0 / y_in) * 100 < 100 := by
  have main : (kremser_y_out y_in A NTU).isSome = true ∧
      0 < (kremser_y_out y_in A NTU).getD 0 ∧
      (kremser_y_out y_in A NTU).getD 0 < y_in := by
    unfold kremser_y_out
    rw [if_neg (not_le.mpr hy), if_neg (not_le.mpr hA), if_neg (not_lt.mpr hN.le)]
    by_cases hband : |A - 1| < 1e-6
    · rw [if_pos hband]
      exact ⟨rfl, div_pos hy (by linarith), div_lt_self hy (by linarith)⟩
    · rw [if_neg hband]
      have hA1 : A ≠ 1 := by
        intro he; rw [he] at hband; norm_num at hband
      have h11 : (1 : ℝ) < NTU + 1 := by linarith
      refine ⟨rfl, ?_, ?_⟩ <;> simp only [Option.getD_some]
      · rcases lt_or_gt_of_ne hA1 with hlt | hgt
        · have hpowA : A ^ (NTU + 1) < A := by
            calc A ^ (NTU + 1) < A ^ (1 : ℝ) :=
                  Real.rpow_lt_rpow_of_exponent_gt hA hlt h11
            _ = A := Real.rpow_one A
          exact div_pos_iff.mpr (Or.inr
            ⟨mul_neg_of_pos_of_neg hy (by linarith), by linarith⟩)
        · have hpowA : A < A ^ (NTU + 1) := by
            calc A = A ^ (1 : ℝ) := (Real.rpow_one A).symm
            _ < A ^ (NTU + 1) := Real.rpow_lt_rpow_of_exponent_lt hgt h11
          exact div_pos (mul_pos hy (by linarith)) (by linarith)
      · rcases lt_or_gt_of_ne hA1 with hlt | hgt
        · have hpowA : A ^ (NTU + 1) < A := by
            calc A ^ (NTU + 1) < A ^ (1 : ℝ) :=
                  Real.rpow_lt_rpow_of_exponent_gt hA hlt h11
            _ = A := Real.rpow_one A
          rw [div_lt_iff_of_neg (by linarith : A ^ (NTU + 1) - 1 < 0)]
          nlinarith
        · have hpowA : A < A ^ (NTU + 1) := by
            calc A = A ^ (1 : ℝ) := (Real.rpow_one A).symm
            _ < A ^ (NTU + 1) := Real.rpow_lt_rpow_of_exponent_lt hgt h11
          rw [div_lt_iff (by linarith : (0 : ℝ) < A ^ (NTU + 1) - 1)]
          nlinarith
  obtain ⟨hsome, hpos, hlt⟩ := main
  have ht : (kremser_y_out y_in A NTU).getD 0 / y_in < 1 := (div_lt_one hy).mpr hlt
  have ht0 : 0 < (kremser_y_out y_in A NTU).getD 0 / y_in := div_pos hpos hy
  exact ⟨hsome, hpos, hlt, by linarith, by linarith⟩

/-- Witness for C10 at `y_in = 2`, `A = 1`, `NTU = 1`. -/
theorem kremser_y_out_bounds_witness :
    (kremser_y_out 2 1 1).isSome = true ∧
    0 < (kremser_y_out 2 1 1).getD 0 ∧
    (kremser_y_out 2 1 1).getD 0 < 2 ∧
    0 < (1 - (kremser_y_out 2 1 1).getD 0 / 2) * 100 ∧
    (1 - (kremser_y_out 2 1 1).getD 0 / 2) * 100 < 100 :=
  kremser_y_out_bounds 2 1 1 (by norm_num) (by norm_num) (by norm_num)

/-! ### C8: monotonicity of the Kremser NTU in the absorption factor -/

/-- Secant slopes of `t ↦ t ^ p` through the point `t = 1` are strictly
increasing for `p > 1` (strict convexity of `rpow` on `[0, ∞)`). -/
lemma chord_rpow_strict {p x y : ℝ} (hp : 1 < p) (hx : 0 ≤ x) (hy : 0 ≤ y)
    (hx1 : x ≠ 1) (hy1 : y ≠ 1) (hxy : x < y) :
    (x ^ p - 1) / (x - 1) < (y ^ p - 1) / (y - 1) := by
  have h := (strictConvexOn_rpow hp).secant_strict_mono (a := (1 : ℝ))
      (Set.mem_Ici.mpr zero_le_one) (Set.mem_Ici.mpr hx) (Set.mem_Ici.mpr hy)
      hx1 hy1 hxy
  simpa [Real.one_rpow] using h

/-- The secant slope `(A^p - 1)/(A - 1)` is monotone in the exponent for a
fixed positive base `A ≠ 1`. -/
lemma exponent_slope_mono {A p q : ℝ} (hA : 0 < A) (hA1 : A ≠ 1) (hpq : p ≤ q) :
    (A ^ p - 1) / (A - 1) ≤ (A ^ q - 1) / (A - 1) := by
  rcases eq_or_lt_of_le hpq with rfl | hlt
  · exact le_refl _
  rcases lt_or_gt_of_ne hA1 with h1 | h1
  · have hpow : A ^ q < A ^ p := Real.rpow_lt_rpow_of_exponent_gt hA h1 hlt
    exact le_of_lt ((div_lt_div_right_of_neg (by linarith : A - 1 < 0)).mpr
      (by linarith))
  · have hpow : A ^ p < A ^ q := Real.rpow_lt_rpow_of_exponent_lt h1 hlt
    exact le_of_lt ((div_lt_div_right (by linarith : (0 : ℝ) < A - 1)).mpr
      (by linarith))

/-- From the power characterization `A ^ h = 1 + r (A - 1)` the secant slope
through `1` recovers `r`. -/
lemma slope_eq_r {r A h : ℝ} (hA1 : A ≠ 1) (hpow : A ^ h = 1 + r * (A - 1)) :
    (A ^ h - 1) / (A - 1) = r := by
  rw [hpow, show 1 + r * (A - 1) - 1 = r * (A - 1) from by ring,
    mul_div_assoc, div_self (sub_ne_zero.mpr hA1), mul_one]

/-- Strict decrease of the Kremser NTU across two general-branch absorption
factors, via the implicit characterization `A ^ (N + 1) = 1 + r (A - 1)`. -/
lemma kremser_strict_general {r A1 A2 N1 N2 : ℝ}
    (hA1 : 0 < A1) (hA11 : A1 ≠ 1) (hA2 : 0 < A2) (hA21 : A2 ≠ 1) (hlt : A1 < A2)
    (hN1 : 0 < N1)
    (e1 : A1 ^ (N1 + 1) = 1 + r * (A1 - 1))
    (e2 : A2 ^ (N2 + 1) = 1 + r * (A2 - 1)) :
    N2 < N1 := by
  by_contra hcon
  push_neg at hcon
  have r1 : (A1 ^ (N1 + 1) - 1) / (A1 - 1) = r := slope_eq_r hA11 e1
  have r2 : (A2 ^ (N2 + 1) - 1) / (A2 - 1) = r := slope_eq_r hA21 e2
  have hp : 1 < N1 + 1 := by linarith
  have step1 : (A1 ^ (N1 + 1) - 1) / (A1 - 1) < (A2 ^ (N1 + 1) - 1) / (A2 - 1) :=
    chord_rpow_strict hp hA1.le hA2.le hA11 hA21 hlt
  have step2 : (A2 ^ (N1 + 1) - 1) / (A2 - 1) ≤ (A2 ^ (N2 + 1) - 1) / (A2 - 1) :=
    exponent_slope_mono hA2 hA21 (by linarith)
  rw [r1] at step1
  rw [r2] at step2
  linarith

/-- For a base above one, the implicit Kremser exponent sits strictly below
`r` (strict Bernoulli inequality). -/
lemma kremser_h_vs_r_gt {r A N : ℝ} (hr : 1 < r) (hA : 1 < A)
    (e : A ^ (N + 1) = 1 + r * (A - 1)) : N + 1 < r := by
  have hs : A - 1 ≠ 0 := sub_ne_zero.mpr (ne_of_gt hA)
  have hb : 1 + r * (A - 1) < (1 + (A - 1)) ^ r :=
    one_add_mul_self_lt_rpow_one_add (by linarith) hs hr
  rw [show (1 : ℝ) + (A - 1) = A from by ring] at hb
  rw [← e] at hb
  exact (Real.rpow_lt_rpow_left_iff hA).mp hb

/-- For a base below one, the implicit Kremser exponent sits strictly above
`r` (strict Bernoulli inequality, reversed by the decreasing base). -/
lemma kremser_h_vs_r_lt {r A N : ℝ} (hr : 1 < r) (hA0 : 0 < A) (hA : A < 1)
    (e : A ^ (N + 1) = 1 + r * (A - 1)) : r < N + 1 := by
  have hs : A - 1 ≠ 0 := sub_ne_zero.mpr (ne_of_lt hA)
  have hb : 1 + r * (A - 1) < (1 + (A - 1)) ^ r :=
    one_add_mul_self_lt_rpow_one_add (by linarith) hs hr
  rw [show (1 : ℝ) + (A - 1) = A from by ring] at hb
  rw [← e] at hb
  exact (Real.rpow_lt_rpow_left_iff_of_base_lt_one hA0 hA).mp hb

/-- Counterexample to C8 as stated: `kremser_NTU` is NOT strictly decreasing
in `A` across the special-case band `|A - 1| < 1e-6`, where it is constant:
at `y_in = 1/2`, `y_out = 1/4` the two distinct absorption factors
`A = 1 - 1/2000000 < 1` and `A = 1` both give NTU exactly `1`. -/
theorem kremser_NTU_band_counterexample :
    (1 - 1/2000000 : ℝ) < 1 ∧
    kremser_NTU (1/2) (1/4) (1 - 1/2000000) = some 1 ∧
    kremser_NTU (1/2) (1/4) 1 = some 1 := by
  refine ⟨by norm_num, ?_, ?_⟩
  · unfold kremser_NTU
    rw [if_neg (by norm_num), if_neg (by norm_num), if_neg (by norm_num),
      if_neg (by norm_num), if_pos (by rw [abs_lt]; constructor <;> norm_num)]
    norm_num
  · unfold kremser_NTU
    rw [if_neg (by norm_num), if_neg (by norm_num), if_neg (by norm_num),
      if_neg (by norm_num), if_pos (by rw [abs_lt]; constructor <;> norm_num)]
    norm_num

/-- C8 (corrected).  Amended claim: for fixed `0 < y_out < y_in`,
`kremser_NTU` is weakly decreasing in `A` wherever it is defined, and the
decrease is strict whenever the two absorption factors are not both inside
the special-case band `|A - 1| < 1e-6` (inside the band the function is
constant at `y_in/y_out - 1`, which refutes the claim as stated). -/
theorem kremser_NTU_antitone (y_in y_out A1 A2 N1 N2 : ℝ)
    (h1 : kremser_NTU y_in y_out A1 = some N1)
    (h2 : kremser_NTU y_in y_out A2 = some N2)
    (hlt : A1 < A2) :
    N2 ≤ N1 ∧ (¬ (|A1 - 1| < 1e-6 ∧ |A2 - 1| < 1e-6) → N2 < N1) := by
  obtain ⟨hyout, hltio, hApos1, hcase1⟩ := kremser_NTU_cases h1
  obtain ⟨-, -, hApos2, hcase2⟩ := kremser_NTU_cases h2
  have hr : 1 < y_in / y_out := (one_lt_div hyout).mpr hltio
  have key : N2 < N1 ∨ (|A1 - 1| < 1e-6 ∧ |A2 - 1| < 1e-6 ∧ N1 = N2) := by
    rcases hcase1 with ⟨hb1, hN1⟩ | ⟨hg1, harg1, hN1⟩ <;>
      rcases hcase2 with ⟨hb2, hN2⟩ | ⟨hg2, harg2, hN2⟩
    · exact Or.inr ⟨hb1, hb2, by rw [hN1, hN2]⟩
    · -- A1 in band, A2 general: A2 must exceed 1
      have hA21 : A2 ≠ 1 := by
        intro he; rw [he] at hg2; norm_num at hg2
      have hA2gt : 1 < A2 := by
        rcases lt_or_gt_of_ne hA21 with hl | hg
        · exfalso
          have hup : 1e-6 ≤ 1 - A2 := by
            have := abs_of_nonpos (by linarith : A2 - 1 ≤ 0)
            rw [this] at hg2; linarith
          have hlo : -(1e-6) < A1 - 1 := (abs_lt.mp hb1).1
          linarith
        · exact hg
      have e2 : A2 ^ (N2 + 1) = 1 + y_in / y_out * (A2 - 1) := by
        rw [hN2]; exact rpow_kremser hApos2 hA21 harg2
      have hlt2 : N2 + 1 < y_in / y_out := kremser_h_vs_r_gt hr hA2gt e2
      exact Or.inl (by rw [hN1]; linarith)
    · -- A1 general, A2 in band: A1 must be below 1
      have hA11 : A1 ≠ 1 := by
        intro he; rw [he] at hg1; norm_num at hg1
      have hA1lt : A1 < 1 := by
        rcases lt_or_gt_of_ne hA11 with hl | hg
        · exact hl
        · exfalso
          have hup : 1e-6 ≤ A1 - 1 := by
            have := abs_of_nonneg (by linarith : (0 : ℝ) ≤ A1 - 1)
            rw [this] at hg1; linarith
          have hhi : A2 - 1 < 1e-6 := (abs_lt.mp hb2).2
          linarith
      have e1 : A1 ^ (N1 + 1) = 1 + y_in / y_out * (A1 - 1) := by
        rw [hN1]; exact rpow_kremser hApos1 hA11 harg1
      have hgt1 : y_in / y_out < N1 + 1 := kremser_h_vs_r_lt hr hApos1 hA1lt e1
      exact Or.inl (by rw [hN2]; linarith)
    · -- both general
      have hA11 : A1 ≠ 1 := by
        intro he; rw [he] at hg1; norm_num at hg1
      have hA21 : A2 ≠ 1 := by
        intro he; rw [he] at hg2; norm_num at hg2
      have e1 : A1 ^ (N1 + 1) = 1 + y_in / y_out * (A1 - 1) := by
        rw [hN1]; exact rpow_kremser hApos1 hA11 harg1
      have e2 : A2 ^ (N2 + 1) = 1 + y_in / y_out * (A2 - 1) := by
        rw [hN2]; exact rpow_kremser hApos2 hA21 harg2
      have hN1pos : 0 < N1 := by
        rw [hN1]; exact kremser_general_pos hr hApos1 hA11 harg1
      exact Or.inl (kremser_strict_general hApos1 hA11 hApos2 hA21 hlt hN1pos e1 e2)
  constructor
  · rcases key with hk | ⟨-, -, he⟩
    · exact hk.le
    · exact le_of_eq he.symm
  · intro hnot
    rcases key with hk | ⟨hb1, hb2, -⟩
    · exact hk
    · exact absurd ⟨hb1, hb2⟩ hnot

/-- Witness for C8 (amended) at `y_in = 1/2`, `y_out = 1/4`, `A1 = 1`
(band branch, NTU = 1), `A2 = 2` (general branch). -/
theorem kremser_NTU_antitone_witness :
    Real.log (3/2) / Real.log 2 ≤ 1 ∧
    (¬ (|(1 : ℝ) - 1| < 1e-6 ∧ |(2 : ℝ) - 1| < 1e-6) →
      Real.log (3/2) / Real.log 2 < 1) := by
  have hb : kremser_NTU (1/2) (1/4) 1 = some 1 := by
    unfold kremser_NTU
    rw [if_neg (by norm_num), if_neg (by norm_num), if_neg (by norm_num),
      if_neg (by norm_num), if_pos (by rw [abs_lt]; constructor <;> norm_num)]
    norm_num
  have hg : kremser_NTU (1/2) (1/4) 2 = some (Real.log (3/2) / Real.log 2) := by
    unfold kremser_NTU
    rw [if_neg (by norm_num), if_neg (by norm_num), if_neg (by norm_num),
      if_neg (by norm_num), if_neg (by rw [abs_lt]; norm_num),
      if_neg (by norm_num)]
    norm_num
  exact kremser_NTU_antitone (1/2) (1/4) 1 2 1 (Real.log (3/2) / Real.log 2)
    hb hg (by norm_num)

/-! ### C2 and C3: the solve-for-L bisection -/

/-- The bisection loop never reports more iterations than its budget. -/
lemma bisectIter_count_le (Z : ℝ → ℝ) (Zt tol : ℝ) :
    ∀ (fuel : ℕ) (lo hi : ℝ) (n : ℕ),
      (bisectIter Z Zt tol fuel lo hi n).2.2 ≤ n + fuel := by
  intro fuel
  induction fuel with
  | zero => intro lo hi n; simp [bisectIter]
  | succ f ih =>
    intro lo hi n
    by_cases hc : |Z ((lo + hi) / 2) - Zt| < tol
    · rw [bisectIter, if_pos hc]
      show n + 1 ≤ n + (f + 1)
      omega
    · by_cases hf : f = 0
      · rw [bisectIter, if_neg hc, if_pos hf]
        show n + 1 ≤ n + (f + 1)
        omega
      · by_cases hz : Z ((lo + hi) / 2) > Zt
        · rw [bisectIter, if_neg hc, if_neg hf, if_pos hz]
          exact le_trans (ih _ _ _) (by omega)
        · rw [bisectIter, if_neg hc, if_neg hf, if_neg hz]
          exact le_trans (ih _ _ _) (by omega)

/-- If the loop ends unconverged, it has used its whole iteration budget. -/
lemma bisectIter_exhaust (Z : ℝ → ℝ) (Zt tol : ℝ) :
    ∀ (fuel : ℕ) (lo hi : ℝ) (n : ℕ),
      (bisectIter Z Zt tol fuel lo hi n).2.1 = false →
      (bisectIter Z Zt tol fuel lo hi n).2.2 = n + fuel := by
  intro fuel
  induction fuel with
  | zero => intro lo hi n _; simp [bisectIter]
  | succ f ih =>
    intro lo hi n h
    by_cases hc : |Z ((lo + hi) / 2) - Zt| < tol
    · rw [bisectIter, if_pos hc] at h
      simp at h
    · by_cases hf : f = 0
      · rw [bisectIter, if_neg hc, if_pos hf]
        show n + 1 = n + (f + 1)
        omega
      · by_cases hz : Z ((lo + hi) / 2) > Zt
        · rw [bisectIter, if_neg hc, if_neg hf, if_pos hz] at h ⊢
          rw [ih _ _ _ h]
          omega
        · rw [bisectIter, if_neg hc, if_neg hf, if_neg hz] at h ⊢
          rw [ih _ _ _ h]
          omega

/-- A converged result satisfies the height tolerance at the returned
midpoint. -/
lemma bisectIter_tol (Z : ℝ → ℝ) (Zt tol : ℝ) :
    ∀ (fuel : ℕ) (lo hi : ℝ) (n : ℕ),
      (bisectIter Z Zt tol fuel lo hi n).2.1 = true →
      |Z (bisectIter Z Zt tol fuel lo hi n).1 - Zt| < tol := by
  intro fuel
  induction fuel with
  | zero => intro lo hi n h; simp [bisectIter] at h
  | succ f ih =>
    intro lo hi n h
    by_cases hc : |Z ((lo + hi) / 2) - Zt| < tol
    · rw [bisectIter, if_pos hc]
      exact hc
    · by_cases hf : f = 0
      · rw [bisectIter, if_neg hc, if_pos hf] at h
        simp at h
      · by_cases hz : Z ((lo + hi) / 2) > Zt
        · rw [bisectIter, if_neg hc, if_neg hf, if_pos hz] at h ⊢
          exact ih _ _ _ h
        · rw [bisectIter, if_neg hc, if_neg hf, if_neg hz] at h ⊢
          exact ih _ _ _ h

/-- As soon as the midpoint height meets the tolerance, the loop stops with
`converged = true` at the current iteration. -/
lemma bisectIter_early (Z : ℝ → ℝ) (Zt tol : ℝ) (fuel : ℕ) (lo hi : ℝ) (n : ℕ)
    (hfuel : 0 < fuel) (htol : |Z ((lo + hi) / 2) - Zt| < tol) :
    bisectIter Z Zt tol fuel lo hi n = ((lo + hi) / 2, true, n + 1) := by
  obtain ⟨f, rfl⟩ : ∃ f, fuel = f + 1 :=
    ⟨fuel - 1, by omega⟩
  simp only [bisectIter]
  rw [if_pos htol]

/-- C3 (confirmed).  The solve-for-L bisection loop runs at most 50
iterations; it stops with `converged = true` as soon as the midpoint height
is within `tol` of the target (and any converged result satisfies the
tolerance); and when the budget is exhausted without converging it reports
exactly 50 iterations with `converged = false` while `_bisect_for_L` still
returns the final midpoint (no exception) whenever its feasibility
precondition held. -/
theorem bisect_termination :
    (∀ (Z : ℝ → ℝ) (Zt tol lo hi : ℝ),
      (bisectIter Z Zt tol 50 lo hi 0).2.2 ≤ 50) ∧
    (∀ (Z : ℝ → ℝ) (Zt tol lo hi : ℝ),
      (bisectIter Z Zt tol 50 lo hi 0).2.1 = false →
      (bisectIter Z Zt tol 50 lo hi 0).2.2 = 50) ∧
    (∀ (Z : ℝ → ℝ) (Zt tol : ℝ) (fuel : ℕ) (lo hi : ℝ) (n : ℕ),
      (bisectIter Z Zt tol fuel lo hi n).2.1 = true →
      |Z (bisectIter Z Zt tol fuel lo hi n).1 - Zt| < tol) ∧
    (∀ (Z : ℝ → ℝ) (Zt tol : ℝ) (fuel : ℕ) (lo hi : ℝ) (n : ℕ),
      0 < fuel → |Z ((lo + hi) / 2) - Zt| < tol →
      bisectIter Z Zt tol fuel lo hi n = ((lo + hi) / 2, true, n + 1)) ∧
    (∀ (Zfun : ℝ → ℝ) (m G MW Zt : ℝ), 0 < m →
      ¬ (Zfun (max (1.05 * m * G * MW * 100) 1000) > Zt) →
      (bisect_for_L Zfun m G MW Zt 0.001 50).isSome = true) := by
  refine ⟨?_, ?_, ?_, ?_, ?_⟩
  · intro Z Zt tol lo hi
    simpa using bisectIter_count_le Z Zt tol 50 lo hi 0
  · intro Z Zt tol lo hi h
    simpa using bisectIter_exhaust Z Zt tol 50 lo hi 0 h
  · exact bisectIter_tol
  · intro Z Zt tol fuel lo hi n hf ht
    exact bisectIter_early Z Zt tol fuel lo hi n hf ht
  · intro Zfun m G MW Zt hm hinf
    simp only [bisect_for_L]
    rw [if_neg (not_le.mpr hm), if_neg hinf]
    split_ifs <;> simp

/-- Witness for C3: with the constant height function `Z ≡ 0` and target 0
the loop converges at its very first midpoint. -/
theorem bisect_termination_witness :
    bisectIter (fun _ => 0) 0 0.001 50 0 1 0 = (1/2, true, 1) := by
  have h := bisect_termination.2.2.2.1 (fun _ => 0) 0 0.001 50 0 1 0
    (by norm_num) (by norm_num)
  simpa using h

/-- C2 (confirmed).  In `_bisect_for_L` the lower bound is chosen so that
the absorption factor of the species with the largest effective equilibrium
slope (`max_m_eff`) is exactly `1.05` at the molar rate `L_mol_min`, the
upper bound is `L_max = max(100·L_min, 1000)`, and if the height required
at `L_max` still exceeds `Z_target` the call raises (`none`) instead of
returning a liquid rate. -/
theorem bisect_for_L_infeasible (Zfun : ℝ → ℝ) (m G MW Zt : ℝ)
    (hm : 0 < m) (hG : 0 < G) :
    absorption_factor (1.05 * m * G) G m = some 1.05 ∧
    (Zfun (max (1.05 * m * G * MW * 100) 1000) > Zt →
      bisect_for_L Zfun m G MW Zt 0.001 50 = none) := by
  constructor
  · unfold absorption_factor
    rw [if_neg (not_le.mpr hm), if_neg (not_le.mpr hG)]
    congr 1
    field_simp
    ring
  · intro hinf
    simp only [bisect_for_L]
    rw [if_neg (not_le.mpr hm), if_pos hinf]

/-- Witness for C2 at `m = G = MW = 1`, `Z_target = 1`, constant height 5. -/
theorem bisect_for_L_infeasible_witness :
    absorption_factor (1.05 * 1 * 1) 1 1 = some 1.05 ∧
    bisect_for_L (fun _ => 5) 1 1 1 1 0.001 50 = none := by
  obtain ⟨h1, h2⟩ := bisect_for_L_infeasible (fun _ => 5) 1 1 1 1
    (by norm_num) (by norm_num)
  exact ⟨h1, h2 (by norm_num)⟩

/-! ### C4: the removal cap when the absorption factor is below 1 -/

/-- Counterexample to C4 as stated: a species with absorption factor
`A = 1/2 < 1` but a modest removal target of 10% (so that the requested
fraction `0.1` does not exceed `0.95·A = 0.475`) is NOT retargeted and its
`removal_capped` flag stays `false`. -/
theorem removal_cap_counterexample :
    ((1 : ℝ)/2) < 1 ∧
    acid_gas_target (1/10) 10 (1/2) = (1/10, 9/100, false) := by
  refine ⟨by norm_num, ?_⟩
  unfold acid_gas_target uncapped_target
  rw [if_neg (by norm_num)]
  norm_num

/-- C4 (corrected).  Amended claim: for a species with absorption factor
`A < 1` the analysis retargets the removal fraction to `0.90·A` and sets
`removal_capped = true` exactly when the requested removal fraction
`removal_target_pct/100` exceeds `0.95·A`; otherwise (still with `A < 1`)
the requested fraction is kept and `removal_capped` stays `false`. -/
theorem removal_cap_amended (y_in pct A : ℝ) (hA : A < 1) :
    (pct / 100 > A * 0.95 →
      acid_gas_target y_in pct A = (A * 0.90, y_in * (1 - A * 0.90), true)) ∧
    (pct / 100 ≤ A * 0.95 →
      (acid_gas_target y_in pct A).2.2 = false ∧
      (acid_gas_target y_in pct A).1 = pct / 100) := by
  constructor
  · intro hgt
    unfold acid_gas_target
    rw [if_pos ⟨hA, hgt⟩]
  · intro hle
    unfold acid_gas_target
    rw [if_neg (by intro hand; exact absurd hand.2 (not_lt.mpr hle))]
    exact ⟨rfl, rfl⟩

/-- Witness for C4 (amended) at `y_in = 1`, target 95%, `A = 1/2`:
`0.95 > 0.475`, so the species is retargeted to `0.45` and flagged. -/
theorem removal_cap_amended_witness :
    acid_gas_target 1 95 (1/2) = ((1/2 : ℝ) * 0.90, 1 * (1 - (1/2 : ℝ) * 0.90), true) :=
  (removal_cap_amended 1 95 (1/2) (by norm_num)).1 (by norm_num)

/-! ### C5: hydraulics input validation -/

/-- Counterexample to C5 as stated: `flow_parameter` accepts a non-positive
liquid flow rate (`L_mass = 0`) AND a non-positive gas density
(`rho_G = 0`) without raising, returning `0`; and
`pressure_drop_irrigated` accepts a non-positive liquid density
(`rho_L = 0`, which it never examines) and succeeds. -/
theorem hydraulics_validation_counterexample :
    flow_parameter 0 1 0 1000 = some 0 ∧
    pressure_drop_irrigated 1 1 1 0 1 1 1e-3 = some 0.056 := by
  constructor
  · unfold flow_parameter
    rw [if_neg (by norm_num), if_neg (by norm_num), if_neg (by norm_num)]
    norm_num
  · unfold pressure_drop_irrigated
    rw [if_neg (by norm_num)]
    norm_num [Real.sqrt_one, Real.one_rpow]

/-- C5 (corrected).  Amended claim: each Hydraulics Engine function fails
(`InvalidInput`, modelled `none`) exactly on the checks it actually
performs: `flow_parameter` rejects only `G_mass ≤ 0`, `rho_L ≤ 0` and a
negative square-root argument (it accepts non-positive `L_mass` and
`rho_G = 0`); `flooding_velocity` rejects non-positive `F_p`, `rho_G`,
`rho_L`, `G_mass` and violated density ordering `rho_L ≤ rho_G`;
`column_diameter` rejects non-positive `Q`, `u_flood` and an out-of-range
flooding fraction; `pressure_drop_irrigated` rejects only non-positive
`u_G`, `F_p`, `rho_G` and never examines `rho_L`; `minimum_wetting_rate`
rejects only `a_p ≤ 0` among its guards. -/
theorem hydraulics_validation :
    (∀ L G rG rL : ℝ,
      flow_parameter L G rG rL = none ↔ (G ≤ 0 ∨ rL ≤ 0 ∨ rG / rL < 0)) ∧
    (∀ Fp rG rL L G muL : ℝ,
      (Fp ≤ 0 ∨ rG ≤ 0 ∨ rL ≤ 0 ∨ rL ≤ rG ∨ G ≤ 0) →
      flooding_velocity Fp rG rL L G muL = none) ∧
    (∀ Q u f : ℝ, (Q ≤ 0 ∨ u ≤ 0 ∨ f < 0.1 ∨ 0.95 < f) →
      column_diameter Q u f = none) ∧
    (∀ uG Fp rG rL L G muL : ℝ, (uG ≤ 0 ∨ Fp ≤ 0 ∨ rG ≤ 0) →
      pressure_drop_irrigated uG Fp rG rL L G muL = none) ∧
    (∀ uG Fp rG rL rL2 L G muL : ℝ,
      pressure_drop_irrigated uG Fp rG rL L G muL =
      pressure_drop_irrigated uG Fp rG rL2 L G muL) ∧
    (∀ ap sg muL rL : ℝ, ap ≤ 0 → minimum_wetting_rate ap sg muL rL = none) := by
  refine ⟨?_, ?_, ?_, ?_, ?_, ?_⟩
  · intro L G rG rL
    unfold flow_parameter
    split_ifs with h1 h2 h3
    · simp [h1]
    · simp [h2]
    · simp [h3]
    · simp [h1, h2, h3]
  · intro Fp rG rL L G muL h
    unfold flooding_velocity
    by_cases h1 : Fp ≤ 0
    · rw [if_pos h1]
    rw [if_neg h1]
    by_cases h2 : rG ≤ 0 ∨ rL ≤ 0
    · rw [if_pos h2]
    rw [if_neg h2]
    by_cases h3 : rL ≤ rG
    · rw [if_pos h3]
    rw [if_neg h3]
    have hG : G ≤ 0 := by tauto
    have hfp : flow_parameter L G rG rL = none := by
      unfold flow_parameter
      rw [if_pos hG]
    rw [hfp]
  · intro Q u f h
    unfold column_diameter
    by_cases hQ : Q ≤ 0
    · rw [if_pos hQ]
    rw [if_neg hQ]
    by_cases hu : u ≤ 0
    · rw [if_pos hu]
    rw [if_neg hu]
    have hf : ¬ (0.1 ≤ f ∧ f ≤ 0.95) := by
      rcases h with h | h | h | h
      · exact absurd h hQ
      · exact absurd h hu
      · exact fun hand => absurd hand.1 (not_le.mpr h)
      · exact fun hand => absurd hand.2 (not_le.mpr h)
    rw [if_pos hf]
  · intro uG Fp rG rL L G muL h
    unfold pressure_drop_irrigated
    rw [if_pos h]
  · intro uG Fp rG rL rL2 L G muL
    rfl
  · intro ap sg muL rL h
    unfold minimum_wetting_rate
    rw [if_pos h]

/-- Witness for C5 (amended): concrete failing calls through the theorem. -/
theorem hydraulics_validation_witness :
    flow_parameter 1 0 1 1 = none ∧
    flooding_velocity 0 1 1000 1 1 1e-3 = none ∧
    column_diameter 1 1 0.99 = none ∧
    minimum_wetting_rate 0 0.072 1e-3 998 = none :=
  ⟨(hydraulics_validation.1 1 0 1 1).mpr (Or.inl le_rfl),
   hydraulics_validation.2.1 0 1 1000 1 1 1e-3 (Or.inl le_rfl),
   hydraulics_validation.2.2.1 1 1 0.99 (Or.inr (Or.inr (Or.inr (by norm_num)))),
   hydraulics_validation.2.2.2.2.2 0 0.072 1e-3 998 le_rfl⟩

/-! ### Properties of the Python rounding model -/

/-- `pyround` lands within half a unit of its argument on both sides. -/
lemma pyround_le (x : ℝ) : (pyround x : ℝ) ≤ x + 1/2 ∧ x - 1/2 ≤ (pyround x : ℝ) := by
  unfold pyround
  split_ifs with ht
  · have hx : x = (⌊x⌋ : ℝ) + 1/2 := by
      conv_lhs => rw [← Int.floor_add_fract x]
      rw [ht]
    rcases Int.even_or_odd ⌊x⌋ with ⟨m, hm⟩ | ⟨m, hm⟩
    · have hx2 : x / 2 = (m : ℝ) + 1/4 := by
        rw [hx, hm]; push_cast; ring
      have hr : round (x / 2) = m := by
        rw [round_eq, hx2,
          show (m : ℝ) + 1/4 + 1/2 = (m : ℝ) + 3/4 from by ring,
          Int.floor_int_add]
        have : ⌊(3/4 : ℝ)⌋ = 0 := by
          rw [Int.floor_eq_iff]
          norm_num
        rw [this, add_zero]
      rw [hr, hx, hm]
      push_cast
      constructor <;> linarith
    · have hx2 : x / 2 = (m : ℝ) + 3/4 := by
        rw [hx, hm]; push_cast; ring
      have hr : round (x / 2) = m + 1 := by
        rw [round_eq, hx2,
          show (m : ℝ) + 3/4 + 1/2 = (m : ℝ) + 5/4 from by ring,
          Int.floor_int_add]
        have : ⌊(5/4 : ℝ)⌋ = 1 := by
          rw [Int.floor_eq_iff]
          norm_num
        rw [this]
      rw [hr, hx, hm]
      push_cast
      constructor <;> linarith
  · have h := abs_le.mp (abs_sub_round x)
    constructor <;> linarith [h.1, h.2]

/-- `pyround` is monotone: rounding ties to even never reorders values. -/
lemma pyround_mono {x y : ℝ} (hxy : x ≤ y) : pyround x ≤ pyround y := by
  by_contra hcon
  push_neg at hcon
  have hxb := pyround_le x
  have hyb := pyround_le y
  have hcast : (pyround y : ℝ) + 1 ≤ (pyround x : ℝ) := by
    exact_mod_cast Int.add_one_le_iff.mpr hcon
  have hyx : y ≤ x := by linarith [hxb.1, hyb.2]
  have heq : x = y := le_antisymm hxy hyx
  rw [heq] at hcon
  exact lt_irrefl _ hcon

/-- `pyround_to` is monotone. -/
lemma pyround_to_mono (n : ℕ) {x y : ℝ} (hxy : x ≤ y) :
    pyround_to n x ≤ pyround_to n y := by
  unfold pyround_to
  have h10 : (0 : ℝ) < 10 ^ n := by positivity
  have hm : pyround (x * 10 ^ n) ≤ pyround (y * 10 ^ n) :=
    pyround_mono (mul_le_mul_of_nonneg_right hxy h10.le)
  have hm2 : (pyround (x * 10 ^ n) : ℝ) ≤ (pyround (y * 10 ^ n) : ℝ) := by
    exact_mod_cast hm
  exact (div_le_div_right h10).mpr hm2

/-- `pyround_to n` differs from its argument by at most half a final digit. -/
lemma abs_pyround_to_sub (n : ℕ) (x : ℝ) :
    |pyround_to n x - x| ≤ 1/2 / 10 ^ n := by
  unfold pyround_to
  have h10 : (0 : ℝ) < 10 ^ n := by positivity
  have hb := pyround_le (x * 10 ^ n)
  have heq : (pyround (x * 10 ^ n) : ℝ) / 10 ^ n - x
      = ((pyround (x * 10 ^ n) : ℝ) - x * 10 ^ n) / 10 ^ n := by
    field_simp
    ring
  rw [heq, abs_div, abs_of_pos h10]
  exact (div_le_div_right h10).mpr
    (abs_le.mpr ⟨by linarith [hb.2], by linarith [hb.1]⟩)

/-- `pyround` of an integer is the integer itself. -/
lemma pyround_intCast (z : ℤ) : pyround (z : ℝ) = z := by
  unfold pyround
  rw [Int.fract_intCast, if_neg (by norm_num)]
  exact round_intCast z

/-- Evaluation rule for `pyround` away from ties. -/
lemma pyround_eq_of {x : ℝ} {z : ℤ} (hne : Int.fract x ≠ 1/2)
    (hz : ⌊x + 1/2⌋ = z) : pyround x = z := by
  unfold pyround
  rw [if_neg hne, round_eq, hz]

/-! ### C9: column diameter vs flooding fraction -/

/-- A `column_diameter` call with valid inputs succeeds, with all three
returned fields rounded to 4 decimals. -/
lemma column_diameter_in_range {Q u f : ℝ} (hQ : 0 < Q) (hu : 0 < u)
    (h1 : 0.1 ≤ f) (h2 : f ≤ 0.95) :
    column_diameter Q u f = some ⟨pyround_to 4 (f * u), pyround_to 4 (Q / (f * u)),
      pyround_to 4 (Real.sqrt (4 * (Q / (f * u)) / Real.pi))⟩ := by
  unfold column_diameter
  rw [if_neg (not_le.mpr hQ), if_neg (not_le.mpr hu),
    if_neg (not_not_intro ⟨h1, h2⟩)]

/-- Counterexample to C9 as stated: the `D_column` value returned by
`column_diameter` is NOT strictly decreasing in the flooding fraction,
because the source rounds it to 4 decimals before returning.  At
`Q = π/4`, `u_flood = 1` the exact diameters are `1.25` (for
`f = 16/25 = 0.64`) and `1.25002` (for the smaller
`f = (50000/62501)² ≈ 0.63998`), which round to the same `1.25`. -/
theorem column_diameter_rounding_counterexample :
    ((50000/62501 : ℝ) ^ (2 : ℕ) < 16/25) ∧
    (0.1 ≤ ((50000/62501 : ℝ) ^ (2 : ℕ))) ∧ ((16/25 : ℝ) ≤ 0.95) ∧
    (column_diameter (Real.pi/4) 1 (16/25)).map DiameterResult.D_column = some (5/4) ∧
    (column_diameter (Real.pi/4) 1 ((50000/62501 : ℝ) ^ (2 : ℕ))).map
      DiameterResult.D_column = some (5/4) := by
  have hπ := Real.pi_pos
  refine ⟨by norm_num, by norm_num, by norm_num, ?_, ?_⟩
  · rw [column_diameter_in_range (by positivity) (by norm_num) (by norm_num) (by norm_num)]
    simp only [Option.map_some']
    congr 1
    have harg : 4 * (Real.pi/4 / ((16/25 : ℝ) * 1)) / Real.pi = 25/16 := by
      field_simp
      ring
    rw [harg, show (25/16 : ℝ) = (5/4) ^ 2 from by norm_num,
      Real.sqrt_sq (by norm_num : (0:ℝ) ≤ 5/4)]
    unfold pyround_to
    rw [show (5/4 : ℝ) * 10 ^ 4 = ((12500 : ℤ) : ℝ) from by norm_num,
      pyround_intCast]
    norm_num
  · rw [column_diameter_in_range (by positivity) (by norm_num) (by norm_num) (by norm_num)]
    simp only [Option.map_some']
    congr 1
    have hf0 : ((50000/62501 : ℝ) ^ (2 : ℕ)) ≠ 0 := by norm_num
    have harg : 4 * (Real.pi/4 / (((50000/62501 : ℝ) ^ (2 : ℕ)) * 1)) / Real.pi
        = (62501/50000 : ℝ) ^ (2 : ℕ) := by
      field_simp
      ring
    rw [harg, Real.sqrt_sq (by norm_num : (0:ℝ) ≤ 62501/50000)]
    unfold pyround_to
    have hmul : (62501/50000 : ℝ) * 10 ^ 4 = 62501/5 := by norm_num
    rw [hmul]
    have hfl : ⌊(62501/5 : ℝ)⌋ = 12500 := by
      rw [Int.floor_eq_iff]
      constructor <;> norm_num
    have hfr : Int.fract (62501/5 : ℝ) ≠ 1/2 := by
      have : Int.fract (62501/5 : ℝ) = 62501/5 - ((12500 : ℤ) : ℝ) := by
        rw [← Int.self_sub_floor, hfl]
      rw [this]
      norm_num
    have hfl2 : ⌊(62501/5 : ℝ) + 1/2⌋ = 12500 := by
      rw [Int.floor_eq_iff]
      constructor <;> norm_num
    rw [pyround_eq_of hfr hfl2]
    norm_num

/-- C9 (corrected).  Amended claim: over `[0.1, 0.95]` the exact diameter
`√(4·(Q/(f·u_flood))/π)` is strictly decreasing in the flooding fraction,
and the returned (4-decimal-rounded) `D_column` field is weakly decreasing;
`column_diameter` raises for any flooding fraction outside `[0.1, 0.95]`.
(Strict decrease of the returned value fails only because of the final
rounding, per the counterexample.) -/
theorem column_diameter_antitone (Q u f1 f2 : ℝ) (hQ : 0 < Q) (hu : 0 < u)
    (h1 : 0.1 ≤ f1) (h2 : f2 ≤ 0.95) (h12 : f1 < f2) :
    column_diameter Q u f1 = some ⟨pyround_to 4 (f1 * u), pyround_to 4 (Q / (f1 * u)),
      pyround_to 4 (Real.sqrt (4 * (Q / (f1 * u)) / Real.pi))⟩ ∧
    column_diameter Q u f2 = some ⟨pyround_to 4 (f2 * u), pyround_to 4 (Q / (f2 * u)),
      pyround_to 4 (Real.sqrt (4 * (Q / (f2 * u)) / Real.pi))⟩ ∧
    Real.sqrt (4 * (Q / (f2 * u)) / Real.pi) < Real.sqrt (4 * (Q / (f1 * u)) / Real.pi) ∧
    pyround_to 4 (Real.sqrt (4 * (Q / (f2 * u)) / Real.pi)) ≤
      pyround_to 4 (Real.sqrt (4 * (Q / (f1 * u)) / Real.pi)) ∧
    (∀ f : ℝ, f < 0.1 ∨ 0.95 < f → column_diameter Q u f = none) := by
  have hπ := Real.pi_pos
  have hf1 : (0 : ℝ) < f1 := by linarith
  have hf2 : (0 : ℝ) < f2 := by linarith
  have hdiv : Q / (f2 * u) < Q / (f1 * u) :=
    (div_lt_div_left hQ (by positivity) (by positivity)).mpr
      (mul_lt_mul_of_pos_right h12 hu)
  have harg : 4 * (Q / (f2 * u)) / Real.pi < 4 * (Q / (f1 * u)) / Real.pi := by
    gcongr
  have hsqrt : Real.sqrt (4 * (Q / (f2 * u)) / Real.pi) <
      Real.sqrt (4 * (Q / (f1 * u)) / Real.pi) :=
    Real.sqrt_lt_sqrt (by positivity) harg
  refine ⟨column_diameter_in_range hQ hu h1 (by linarith),
    column_diameter_in_range hQ hu (by linarith) h2, hsqrt,
    pyround_to_mono 4 hsqrt.le, ?_⟩
  intro f hf
  have hout : ¬ (0.1 ≤ f ∧ f ≤ 0.95) := by
    rcases hf with h | h
    · exact fun hand => absurd hand.1 (not_le.mpr h)
    · exact fun hand => absurd hand.2 (not_le.mpr h)
  unfold column_diameter
  rw [if_neg (not_le.mpr hQ), if_neg (not_le.mpr hu), if_pos hout]

/-- Witness for C9 (amended): a concrete out-of-range failure through the
theorem at `Q = u = 1`, `f1 = 1/2`, `f2 = 7/10`. -/
theorem column_diameter_antitone_witness : column_diameter 1 1 2 = none :=
  (column_diameter_antitone 1 1 (1/2) (7/10) (by norm_num) (by norm_num)
    (by norm_num) (by norm_num) (by norm_num)).2.2.2.2 2 (Or.inr (by norm_num))

/-! ### C6: exit-gas renormalization -/

/-- Summed rounding error over a list: if `g` and `h` differ pointwise by at
most `c`, the mapped sums differ by at most `length · c`. -/
lemma sum_map_abs_bound {c : ℝ} (g h : ℝ → ℝ) :
    ∀ l : List ℝ, (∀ x ∈ l, |g x - h x| ≤ c) →
      |(l.map g).sum - (l.map h).sum| ≤ l.length * c := by
  intro l
  induction l with
  | nil => intro _; simp
  | cons a t ih =>
    intro hx
    simp only [List.map_cons, List.sum_cons, List.length_cons]
    have h1 : |g a - h a| ≤ c := hx a (List.mem_cons_self a t)
    have h2 := ih (fun x hxt => hx x (List.mem_cons_of_mem a hxt))
    calc |g a + (t.map g).sum - (h a + (t.map h).sum)|
        = |(g a - h a) + ((t.map g).sum - (t.map h).sum)| := by ring_nf
      _ ≤ |g a - h a| + |(t.map g).sum - (t.map h).sum| := abs_add _ _
      _ ≤ c + t.length * c := add_le_add h1 h2
      _ = (t.length + 1 : ℕ) * c := by push_cast; ring

/-- Mapping `f ↦ f / T * 100` over a list scales the sum. -/
lemma sum_map_scale (T : ℝ) :
    ∀ l : List ℝ, (l.map (fun f => f / T * 100)).sum = l.sum / T * 100 := by
  intro l
  induction l with
  | nil => simp
  | cons a t ih =>
    simp only [List.map_cons, List.sum_cons, ih]
    ring

/-- Counterexample to C6 as stated: a valid gas mixture (2963 identical
entries of `100/2963` mol-%, summing to exactly 100) whose inert exit-gas
mole fractions renormalize to per-component `0.0337` after the 4-decimal
rounding, so the outlet mol-percents sum to `99.8531`, off by `0.1469 >
0.1`. -/
theorem renormalize_counterexample :
    |(List.replicate 2963 ((100 : ℝ)/2963)).sum - 100| ≤ 1 ∧
    |(renormalize_pct (List.replicate 2963 ((1 : ℝ)/2963))).sum - 100| > 0.1 := by
  have hsumin : (List.replicate 2963 ((100 : ℝ)/2963)).sum = 100 := by
    rw [List.sum_replicate, nsmul_eq_mul]
    norm_num
  have hsum1 : (List.replicate 2963 ((1 : ℝ)/2963)).sum = 1 := by
    rw [List.sum_replicate, nsmul_eq_mul]
    norm_num
  constructor
  · rw [hsumin]; norm_num
  · have hent : pyround_to 4 ((1 : ℝ)/2963 / 1 * 100) = 337/10^4 := by
      unfold pyround_to
      rw [show ((1 : ℝ)/2963 / 1 * 100) * 10 ^ 4 = 1000000/2963 from by norm_num]
      have hfr : Int.fract ((1000000 : ℝ)/2963) ≠ 1/2 := by
        have hfl : ⌊(1000000 : ℝ)/2963⌋ = 337 := by
          rw [Int.floor_eq_iff]
          constructor <;> norm_num
        rw [show Int.fract ((1000000 : ℝ)/2963)
            = (1000000 : ℝ)/2963 - ((337 : ℤ) : ℝ) from by
          rw [← Int.self_sub_floor, hfl]]
        norm_num
      have hfl2 : ⌊(1000000 : ℝ)/2963 + 1/2⌋ = 337 := by
        rw [Int.floor_eq_iff]
        constructor <;> norm_num
      rw [pyround_eq_of hfr hfl2]
      norm_num
    have hlist : renormalize_pct (List.replicate 2963 ((1 : ℝ)/2963))
        = List.replicate 2963 ((337 : ℝ)/10^4) := by
      unfold renormalize_pct
      rw [List.map_replicate, hsum1, if_pos (by norm_num : (0 : ℝ) < 1), hent]
    rw [hlist, List.sum_replicate, nsmul_eq_mul]
    push_cast
    rw [show (2963 : ℝ) * (337/10^4) - 100 = -(1469/10^4) from by norm_num,
      abs_neg, abs_of_nonneg (by norm_num : (0:ℝ) ≤ (1469 : ℝ)/10^4)]
    norm_num

/-- C6 (corrected).  Amended claim: whenever the exit-gas mole fractions
have a positive total, the renormalized outlet mol-percents sum to 100
within `5·10⁻⁵` per mixture component (the 4-decimal rounding error);
in particular they sum to 100 within 0.1 for every mixture of at most
2000 components.  (For longer valid mixtures the bound can be exceeded,
per the counterexample.) -/
theorem renormalize_sum (fracs : List ℝ) (hpos : 0 < fracs.sum) :
    |(renormalize_pct fracs).sum - 100| ≤ fracs.length * (5e-5) ∧
    (fracs.length ≤ 2000 → |(renormalize_pct fracs).sum - 100| ≤ 0.1) := by
  have hmap : renormalize_pct fracs
      = fracs.map (fun f => pyround_to 4 (f / fracs.sum * 100)) :=
    List.map_congr_left (fun f _ => if_pos hpos)
  have hbound := sum_map_abs_bound (c := 5e-5)
    (fun f => pyround_to 4 (f / fracs.sum * 100))
    (fun f => f / fracs.sum * 100) fracs
    (fun x _ => le_trans (abs_pyround_to_sub 4 (x / fracs.sum * 100)) (by norm_num))
  have hsum : (fracs.map (fun f => f / fracs.sum * 100)).sum = 100 := by
    rw [sum_map_scale, div_self hpos.ne', one_mul]
  rw [hsum] at hbound
  rw [hmap]
  refine ⟨hbound, fun hlen => ?_⟩
  have hlen2 : (fracs.length : ℝ) ≤ 2000 := by exact_mod_cast hlen
  have : (fracs.length : ℝ) * (5e-5) ≤ 0.1 := by nlinarith
  linarith

/-- Witness for C6 (amended) on the one-component list `[1]`. -/
theorem renormalize_sum_witness :
    |(renormalize_pct [(1 : ℝ)]).sum - 100| ≤ [(1 : ℝ)].length * (5e-5) ∧
    ([(1 : ℝ)].length ≤ 2000 → |(renormalize_pct [(1 : ℝ)]).sum - 100| ≤ 0.1) :=
  renormalize_sum [(1 : ℝ)] (by simp)

/-! ### C7: inert pass-through in the back-calculation -/

/-- A successful `analyze_one` call records the component's own name, and
is marked `calculated` only when the Henry lookup succeeded. -/
lemma analyze_one_name {hdb kdb : String → Option (ℝ × ℝ × ℝ)} {ctx : ScrubCtx}
    {rtp : ℝ} {c : GasComponent} {r : AGResult}
    (h : analyze_one hdb kdb ctx rtp c = some r) :
    r.name = c.name ∧ (r.calculated = true → hdb c.name ≠ none) := by
  unfold analyze_one at h
  cases hhen : hdb c.name with
  | none =>
    simp only [hhen] at h
    rw [Option.some_inj] at h
    subst h
    exact ⟨rfl, by simp⟩
  | some hrec =>
    simp only [hhen] at h
    split at h
    · exact absurd h (by simp)
    · split at h
      · rw [Option.some_inj] at h
        subst h
        exact ⟨rfl, fun _ => by simp [hhen]⟩
      · exact absurd h (by simp)

/-- Every record in `acid_gas_results` stems from an acid-gas component of
the gas stream, and carries `calculated = true` only if that component has
Henry data. -/
lemma acid_gas_analysis_mem {hdb kdb : String → Option (ℝ × ℝ × ℝ)}
    {ctx : ScrubCtx} {rtp : ℝ} :
    ∀ {comps : List GasComponent} {results : List AGResult},
      acid_gas_analysis hdb kdb ctx rtp comps = some results →
      ∀ r ∈ results, ∃ c ∈ comps, c.category = "acid_gas" ∧ r.name = c.name ∧
        (r.calculated = true → hdb c.name ≠ none) := by
  intro comps
  induction comps with
  | nil =>
    intro results h r hr
    rw [acid_gas_analysis, Option.some_inj] at h
    subst h
    simp at hr
  | cons c t ih =>
    intro results h r hr
    rw [acid_gas_analysis] at h
    by_cases hcat : c.category = "acid_gas"
    · rw [if_pos hcat] at h
      cases h1 : analyze_one hdb kdb ctx rtp c with
      | none => rw [h1] at h; simp at h
      | some r0 =>
        cases h2 : acid_gas_analysis hdb kdb ctx rtp t with
        | none => rw [h1, h2] at h; simp at h
        | some rs =>
          rw [h1, h2, Option.some_inj] at h
          subst h
          rcases List.mem_cons.mp hr with rfl | hmem
          · obtain ⟨hname, hcalc⟩ := analyze_one_name h1
            exact ⟨c, List.mem_cons_self c t, hcat, hname, hcalc⟩
          · obtain ⟨c2, hc2, hcat2, hrest⟩ := ih h2 r hmem
            exact ⟨c2, List.mem_cons_of_mem c hc2, hcat2, hrest⟩
    · rw [if_neg hcat] at h
      obtain ⟨c2, hc2, hcat2, hrest⟩ := ih h r hr
      exact ⟨c2, List.mem_cons_of_mem c hc2, hcat2, hrest⟩

/-- C7 (confirmed).  In `_backcalc_at_height`, every component that is not
flagged `acid_gas`, and every acid-gas component lacking Henry data, passes
through unchanged: `removal_pct = 0`, `absorbed_mol_s = 0` and an outlet
mole fraction equal to its inlet mole fraction (conjunct 1).  Only records
that are `calculated` — which always stem from an acid-gas component with
Henry data — are back-calculated, through the inverse Kremser relation at
`NTU = Z_design / H_OG` (conjunct 2).  The hypothesis `hcat` reflects that
`_prepare_system` resolves `category` from the database by name. -/
theorem inert_passthrough (hdb kdb : String → Option (ℝ × ℝ × ℝ)) (ctx : ScrubCtx)
    (rtp : ℝ) (comps : List GasComponent) (results : List AGResult)
    (hres : acid_gas_analysis hdb kdb ctx rtp comps = some results)
    (hcat : ∀ c1 ∈ comps, ∀ c2 ∈ comps,
      GasComponent.name c1 = GasComponent.name c2 →
      GasComponent.category c1 = GasComponent.category c2)
    (c : GasComponent) (hc : c ∈ comps) (G Z : ℝ) :
    ((c.category ≠ "acid_gas" ∨ hdb c.name = none) →
      backcalc_entry results G Z c =
        some ⟨c.name, c.mol_percent, c.mol_fraction, 0, 0⟩) ∧
    (∀ ag : AGResult,
      results.find? (fun r => r.name == c.name && r.calculated) = some ag →
      (∃ c2 ∈ comps, c2.category = "acid_gas" ∧ c2.name = c.name ∧
        hdb c2.name ≠ none) ∧
      (ag.H_OG_full > 0 → Z > 0 → ∀ A : ℝ, ag.A_full = some A →
        backcalc_entry results G Z c =
          (kremser_y_out c.mol_fraction A (Z / ag.H_OG_full)).map (fun y_out =>
            ⟨c.name, c.mol_percent, pyround_to 8 y_out,
             pyround_to 2 (if c.mol_fraction > 0 then
               (1 - y_out / c.mol_fraction) * 100 else 0),
             pyround_to 6 ((c.mol_fraction - y_out) * G)⟩))) := by
  constructor
  · intro hside
    have hnone : results.find? (fun r => r.name == c.name && r.calculated) = none := by
      rw [List.find?_eq_none]
      intro r hr hpred
      rw [Bool.and_eq_true, beq_iff_eq] at hpred
      obtain ⟨hname, hcalc⟩ := hpred
      obtain ⟨c2, hc2, hcat2, hname2, hhen2⟩ := acid_gas_analysis_mem hres r hr
      have hcn : c2.name = c.name := by rw [← hname2, hname]
      rcases hside with hng | hnohen
      · exact hng (by rw [hcat c hc c2 hc2 hcn.symm]; exact hcat2)
      · exact hhen2 hcalc (by rw [hcn]; exact hnohen)
    unfold backcalc_entry
    rw [hnone]
  · intro ag hfind
    have hmem := List.mem_of_find?_eq_some hfind
    have hpred := List.find?_some hfind
    rw [Bool.and_eq_true, beq_iff_eq] at hpred
    obtain ⟨c2, hc2, hcat2, hname2, hhen2⟩ := acid_gas_analysis_mem hres ag hmem
    refine ⟨⟨c2, hc2, hcat2, by rw [← hname2, hpred.1], hhen2 hpred.2⟩, ?_⟩
    intro hHOG hZ A hA
    unfold backcalc_entry
    simp only [hfind]
    rw [if_pos ⟨hHOG, hZ⟩]
    simp only [hA]

/-- Witness for C7 on a one-component inert stream with an empty property
database. -/
theorem inert_passthrough_witness :
    backcalc_entry [] 1 1 ⟨"N2", "inert", 50, 1/2⟩ =
      some ⟨"N2", 50, 1/2, 0, 0⟩ := by
  have hres : acid_gas_analysis (fun _ => none) (fun _ => none)
      ⟨298, 101325, 1, 1, 1, 1, 1, 1, 1000, 1e-3, 100, none, 200, 0.95, none⟩ 90
      [⟨"N2", "inert", 50, 1/2⟩] = some [] := by
    rw [acid_gas_analysis, if_neg (by decide), acid_gas_analysis]
  exact (inert_passthrough (fun _ => none) (fun _ => none)
    ⟨298, 101325, 1, 1, 1, 1, 1, 1, 1000, 1e-3, 100, none, 200, 0.95, none⟩ 90
    [⟨"N2", "inert", 50, 1/2⟩] [] hres
    (by
      intro c1 h1 c2 h2 _
      rw [List.mem_singleton] at h1 h2
      rw [h1, h2])
    ⟨"N2", "inert", 50, 1/2⟩ (List.mem_singleton.mpr rfl) 1 1).1
    (Or.inl (by decide))

end
